import Mathlib

/-!
Verification of the statistical analysis core of the tapestry-analysis
repository (src/analysis: sample.rs, distribution.rs, experiment.rs,
histogram.rs, ks.rs).

Modelling conventions, used consistently below:

1. Numeric model.  The Rust code computes with f32.  The arithmetic the
   algorithms perform (addition, subtraction, multiplication, division,
   absolute value, maximum) is modelled as exact rational arithmetic on
   Rat, and decimal f32 literals of the source are modelled by the
   rational with the same decimal value.  The one place where a square
   root occurs (ks::critical_value) is modelled over Real with
   Real.sqrt.  Unsigned 32-bit integers are modelled as Nat.

2. sample.rs.  Sample is a one-field wrapper around its value.  The Ord
   instance for Sample of f32 delegates to f32::total_cmp, which is an
   operation of the Rust standard library; it is modelled bit-exactly on
   the 32-bit representation (see the totalCmpKey section below) from
   its published definition.  PartialEq and PartialOrd delegate to the
   IEEE 754 numeric comparisons of f32; these are modelled through the
   semantic value of each non-NaN bit pattern.

3. ks.rs.  The local variables of ks::statistic are modelled as
   top-level definitions (sorted_data, interpolated_values, minus_max,
   plus_max) so that each intermediate step of the source function has a
   named counterpart.  Vec::sort on Sample of f32 is a stable sort by
   the Ord instance; it is modelled by List.insertionSort with the
   comparator of the wrapped values, which is also a stable sort and
   agrees with any sort for an antisymmetric total comparator.  The two
   index loops of the source run over arrays of identical length n and
   are modelled with List.zipWith.

4. histogram.rs.  SimpleHistogram::new indexes its bin vector without a
   bounds guard, and Vec indexing out of range is a panic; the panic is
   modelled by an Option result (none = panic).  The bin index
   computation (v as f32 * (num_bins as f32 / u32::MAX as f32)).floor()
   is modelled as exact division: floor of (v * num_bins / (2^32 - 1))
   over the rationals equals Nat division v * num_bins / 4294967295.
   At the input relevant below, v = u32::MAX, the exact model and the
   f32 evaluation agree: exactly, the quotient is num_bins, and in f32,
   u32::MAX as f32 rounds to 2^32, bin_boundary is num_bins / 2^32
   exactly, and 2^32 * (num_bins / 2^32) is again exactly num_bins, so
   the computed index is num_bins under either reading, one past the
   last valid index.

5. distribution.rs / rand_distribution.rs.  The constructors perform no
   validation of the bounds a, b.  Their parameter-carrying parts are
   modelled; the PRNG state (CRC accumulator, thread RNG) and the clock
   read are irrelevant to the claims about construction and are elided.
   u32 subtraction b - a inside normalize_variable is modelled by
   truncated Nat subtraction; the two differ only when a exceeds b, a
   case in which the Rust code panics in debug builds and which no
   theorem below exercises with a nonempty sample list.
-/

/-- Model of sample.rs Sample: a single sample from a distribution. -/
structure Sample (T : Type) where
  sample : T
deriving DecidableEq

/-- Model of experiment.rs Experiment: a collection of samples. -/
structure Experiment (T : Type) where
  samples : List (Sample T)
deriving DecidableEq

/-- Model of distribution.rs DiscreteUniformDistributionParameters:
bounds a and b (u32) of the discrete uniform distribution U[a; b]. -/
structure DiscreteUniformDistributionParameters where
  a : ℕ
  b : ℕ
deriving DecidableEq

/-- Model of distribution.rs normalize_variable:
let width = 1.0 / (parameters.b - parameters.a) as f32;
(item - parameters.a as f32) * width. -/
def normalize_variable (item : ℚ)
    (parameters : DiscreteUniformDistributionParameters) : ℚ :=
  (item - (parameters.a : ℚ)) * (1 / ((parameters.b - parameters.a : ℕ) : ℚ))

/-- Model of ks.rs shifted_uniform_cdf_distribution: the minus list
collects i / n for i in 0..n and the plus list collects i / n for i in
1..=n, each entry computed directly as a division. -/
def shifted_uniform_cdf_distribution (n : ℕ) : List ℚ × List ℚ :=
  ((List.range n).map fun i : ℕ => (i : ℚ) / (n : ℚ),
   (List.range' 1 n).map fun i : ℕ => (i : ℚ) / (n : ℚ))

/-- Model of f32::abs on the exact rational value. -/
def f32abs (q : ℚ) : ℚ := if q < 0 then -q else q

/-- Model of the running-maximum loops of ks.rs statistic:
starting from acc, replace the accumulator by every list element that
exceeds it (for i in 0..n: if res > max then max = res). -/
def runningMax (acc : ℚ) (l : List ℚ) : ℚ :=
  l.foldl (fun m r => if r > m then r else m) acc

/-- The comparator of the Ord instance of sample.rs for Sample of f32,
on the exact values: sorting compares the wrapped samples. -/
def sampleLe (s t : Sample ℚ) : Prop := s.sample ≤ t.sample

instance (s t : Sample ℚ) : Decidable (sampleLe s t) :=
  inferInstanceAs (Decidable (s.sample ≤ t.sample))

instance : DecidableRel sampleLe :=
  fun s t => inferInstanceAs (Decidable (s.sample ≤ t.sample))

instance : IsTotal (Sample ℚ) sampleLe :=
  ⟨fun s t => le_total s.sample t.sample⟩

instance : IsTrans (Sample ℚ) sampleLe :=
  ⟨fun _ _ _ h1 h2 => le_trans h1 h2⟩

instance : IsAntisymm (Sample ℚ) sampleLe := by
  constructor
  intro a b h1 h2
  cases a
  cases b
  simp only [sampleLe] at h1 h2
  simp only [Sample.mk.injEq]
  exact le_antisymm h1 h2

/-- Model of the first two lines of ks.rs statistic:
samples.sort(); let sorted_data = samples.iter().map(s.sample). -/
def sorted_data (experiment : Experiment ℚ) : List ℚ :=
  (experiment.samples.insertionSort sampleLe).map Sample.sample

/-- Model of the interpolated_values vector of ks.rs statistic: every
sorted sample normalized through normalize_variable. -/
def interpolated_values (experiment : Experiment ℚ)
    (parameters : DiscreteUniformDistributionParameters) : List ℚ :=
  (sorted_data experiment).map fun item => normalize_variable item parameters

/-- Model of the minus_max loop of ks.rs statistic: running maximum,
from 0.0, of the absolute differences with the minus-shifted CDF. -/
def minus_max (experiment : Experiment ℚ)
    (parameters : DiscreteUniformDistributionParameters) : ℚ :=
  runningMax 0
    (List.zipWith (fun c v => f32abs (c - v))
      (shifted_uniform_cdf_distribution (sorted_data experiment).length).1
      (interpolated_values experiment parameters))

/-- Model of the plus_max loop of ks.rs statistic: running maximum,
from 0.0, of the absolute differences with the plus-shifted CDF. -/
def plus_max (experiment : Experiment ℚ)
    (parameters : DiscreteUniformDistributionParameters) : ℚ :=
  runningMax 0
    (List.zipWith (fun c v => f32abs (c - v))
      (shifted_uniform_cdf_distribution (sorted_data experiment).length).2
      (interpolated_values experiment parameters))

/-- Model of ks.rs statistic: f32::max(minus_max, plus_max) after the
two loops above. -/
def statistic (experiment : Experiment ℚ)
    (parameters : DiscreteUniformDistributionParameters) : ℚ :=
  max (minus_max experiment parameters) (plus_max experiment parameters)

/-- Model of distribution.rs CriticalValue: significance levels. -/
inductive CriticalValue where
  | TenPercent
  | FivePercent
  | OnePercent
deriving DecidableEq

/-- Model of ks.rs critical_value: none for n in 0..=40, and for larger
n the closed-form constant over the square root of n. -/
noncomputable def critical_value (cv : CriticalValue) (n : ℕ) : Option ℝ :=
  if n ≤ 40 then none
  else
    match cv with
    | CriticalValue.TenPercent => some (1.07 / Real.sqrt n)
    | CriticalValue.FivePercent => some (1.358 / Real.sqrt n)
    | CriticalValue.OnePercent => some (1.52 / Real.sqrt n)

/-- The spec-side asymptotic constants c(10 percent) = 1.07,
c(5 percent) = 1.358, c(1 percent) = 1.52. -/
noncomputable def ks_constant : CriticalValue → ℝ
  | CriticalValue.TenPercent => 1.07
  | CriticalValue.FivePercent => 1.358
  | CriticalValue.OnePercent => 1.52

/-- The low 31 bits of a 32-bit f32 representation: exponent plus
mantissa field, without the sign bit.  2147483648 = 2^31. -/
def low31 (x : ℕ) : ℕ := x % 2147483648

/-- The sign bit is set: the represented value is in the negative half
of the f32 total order. -/
def signBitSet (x : ℕ) : Prop := 2147483648 ≤ x % 4294967296

/-- A NaN bit pattern: exponent field all ones and nonzero mantissa,
i.e. the low 31 bits exceed 0x7F800000 = 2139095040. -/
def isNaN (x : ℕ) : Prop := 2139095040 < low31 x

/-- An infinity bit pattern: exponent all ones and zero mantissa. -/
def isInf (x : ℕ) : Prop := low31 x = 2139095040

/-- A zero bit pattern (+0.0 or -0.0). -/
def isZero (x : ℕ) : Prop := low31 x = 0

instance (x : ℕ) : Decidable (signBitSet x) := by
  unfold signBitSet; infer_instance

instance (x : ℕ) : Decidable (isNaN x) := by
  unfold isNaN low31; infer_instance

instance (x : ℕ) : Decidable (isInf x) := by
  unfold isInf low31; infer_instance

instance (x : ℕ) : Decidable (isZero x) := by
  unfold isZero low31; infer_instance

/-- Model of f32::total_cmp of the Rust standard library, called by the
Ord instance of sample.rs.  The library reinterprets the bits as i32 and
flips the low 31 bits of negative values:
  left ^= (((left >> 31) as u32) >> 1) as i32
then compares the two i32 keys.  For a bit pattern b below 2^31 the key
is b itself; for b with the sign bit set the two i32 values before and
after the flip are b - 2^32 and -(low31 b) - 1.  totalCmpKey computes
that signed key. -/
def totalCmpKey (x : ℕ) : ℤ :=
  if signBitSet x then -((low31 x : ℤ) + 1) else (x % 4294967296 : ℕ)

/-- Model of the comparison of the two i32 keys inside f32::total_cmp:
i32 cmp returns Less, Equal or Greater by signed comparison.  This is
the comparator of the Ord instance for Sample of f32 in sample.rs. -/
def total_cmp (x y : ℕ) : Ordering :=
  if totalCmpKey x < totalCmpKey y then Ordering.lt
  else if totalCmpKey x = totalCmpKey y then Ordering.eq
  else Ordering.gt

/-- The eight classes of the required total order, indexed in ascending
order: negative NaN (0), negative infinity (1), negative finite nonzero
(2), negative zero (3), positive zero (4), positive finite nonzero (5),
positive infinity (6), positive NaN (7). -/
def classIdx (x : ℕ) : ℕ :=
  if signBitSet x then
    if isNaN x then 0 else if isInf x then 1 else if isZero x then 3 else 2
  else
    if isNaN x then 7 else if isInf x then 6 else if isZero x then 4 else 5

/-- Extended value of a non-NaN f32 bit pattern: minus infinity, a
finite rational, or plus infinity. -/
inductive FVal where
  | negInf : FVal
  | fin : ℚ → FVal
  | posInf : FVal
deriving DecidableEq

/-- Comparison of two rationals as IEEE 754 compares two finite values:
Less, Equal or Greater by numeric order. -/
def qcmp (a b : ℚ) : Ordering :=
  if a < b then Ordering.lt else if a = b then Ordering.eq else Ordering.gt

/-- Comparison of extended values: minus infinity below every finite
value, every finite value below plus infinity, finite values by
numeric order. -/
def FVal.cmp : FVal → FVal → Ordering
  | FVal.negInf, FVal.negInf => Ordering.eq
  | FVal.negInf, _ => Ordering.lt
  | FVal.fin _, FVal.negInf => Ordering.gt
  | FVal.fin q, FVal.fin r => qcmp q r
  | FVal.fin _, FVal.posInf => Ordering.lt
  | FVal.posInf, FVal.posInf => Ordering.eq
  | FVal.posInf, _ => Ordering.gt

/-- Exponent field (8 bits) of an f32 bit pattern. -/
def expBits (x : ℕ) : ℕ := low31 x / 8388608

/-- Mantissa field (23 bits) of an f32 bit pattern. -/
def manBits (x : ℕ) : ℕ := low31 x % 8388608

/-- Exact rational value of a finite f32 bit pattern: subnormal values
are m * 2^(-149), normal values are (2^23 + m) * 2^(e - 150), negated
when the sign bit is set. -/
def ratValue (x : ℕ) : ℚ :=
  (if signBitSet x then (-1 : ℚ) else 1) *
    (if expBits x = 0 then (manBits x : ℚ) / 2 ^ 149
     else ((8388608 + manBits x : ℕ) : ℚ) * 2 ^ expBits x / 2 ^ 150)

/-- Semantic value of an f32 bit pattern: none for NaN, an extended
value otherwise.  This carries the IEEE 754 numeric reading of the
pattern, under which -0.0 and +0.0 both denote the rational 0. -/
def toFVal (x : ℕ) : Option FVal :=
  if isNaN x then none
  else if isInf x then some (if signBitSet x then FVal.negInf else FVal.posInf)
  else some (FVal.fin (ratValue x))

/-- Model of the PartialOrd instance of sample.rs for Sample of f32: it
delegates to f32 partial_cmp, the IEEE 754 numeric comparison, which
returns none whenever either operand is NaN and otherwise compares the
semantic values. -/
def sample_cmp_ieee (x y : ℕ) : Option Ordering :=
  match toFVal x, toFVal y with
  | some a, some b => some (FVal.cmp a b)
  | _, _ => none

/-- Model of the PartialEq instance of sample.rs for Sample of f32: it
delegates to f32 ==, which holds exactly when the IEEE 754 comparison
returns Equal. -/
def sample_eq_ieee (x y : ℕ) : Bool :=
  match sample_cmp_ieee x y with
  | some Ordering.eq => true
  | _ => false

/-- Model of histogram.rs SimpleHistogram. -/
structure SimpleHistogram where
  num_bins : ℕ
  bins : List ℕ
  num_data_points : ℕ
deriving DecidableEq

/-- Model of the bin index computation of SimpleHistogram::new:
(v as f32 * (num_bins as f32 / u32::MAX as f32)).floor(), read as exact
arithmetic: the floor of v * num_bins / (2^32 - 1) over the rationals,
which for naturals is the Nat division v * num_bins / 4294967295. -/
def binIndex (num_bins v : ℕ) : ℕ := v * num_bins / 4294967295

/-- Model of one iteration of the binning loop of SimpleHistogram::new:
bins[bin] += 1, where an out-of-range index is a Vec indexing panic,
modelled as none. -/
def updateBins (bins : List ℕ) (i : ℕ) : Option (List ℕ) :=
  if i < bins.length then some (bins.set i (bins.getD i 0 + 1)) else none

/-- Model of histogram.rs SimpleHistogram::new: fold the binning loop
over the samples starting from num_bins empty bins; none models a panic
inside the loop. -/
def simpleHistogram_new (samples : List ℕ) (num_bins : ℕ) :
    Option SimpleHistogram :=
  match samples.foldlM (fun bins v => updateBins bins (binIndex num_bins v))
      (List.replicate num_bins 0) with
  | some bins => some ⟨num_bins, bins, samples.length⟩
  | none => none

/-- Model of the parameter-carrying part of rand_distribution.rs
RandDiscreteUniformDistribution (the ThreadRng state is elided). -/
structure RandDiscreteUniformDistribution where
  a : ℕ
  b : ℕ
deriving DecidableEq

/-- Model of RandDiscreteUniformDistribution::new: stores a and b
unchecked (Self { a, b, state: rng }). -/
def randDiscreteUniformDistribution_new (a b : ℕ) :
    RandDiscreteUniformDistribution :=
  { a := a, b := b }

/-- Model of the parameter part of distribution.rs
DiscreteUniformDistribution::new: it builds the CRC-based PRNG state
from a clock-derived seed (elided) and stores the parameters a and b
unchecked (DiscreteUniformDistributionParameters { a, b }). -/
def discreteUniformDistribution_new_params (a b : ℕ) :
    DiscreteUniformDistributionParameters :=
  { a := a, b := b }

theorem f32abs_eq_abs (q : ℚ) : f32abs q = |q| := by
  unfold f32abs
  split_ifs with h
  · exact (abs_of_neg h).symm
  · exact (abs_of_nonneg (not_lt.mp h)).symm

theorem le_runningMax (acc : ℚ) (l : List ℚ) : acc ≤ runningMax acc l := by
  induction l generalizing acc with
  | nil => simp [runningMax]
  | cons a l ih =>
    unfold runningMax at ih ⊢
    rw [List.foldl_cons]
    refine le_trans ?_ (ih (if a > acc then a else acc))
    split_ifs with h
    · exact le_of_lt h
    · exact le_refl acc

theorem runningMax_le {B : ℚ} (l : List ℚ) (acc : ℚ) (hacc : acc ≤ B)
    (hl : ∀ r ∈ l, r ≤ B) : runningMax acc l ≤ B := by
  induction l generalizing acc with
  | nil => simpa [runningMax] using hacc
  | cons a l ih =>
    unfold runningMax at ih ⊢
    rw [List.foldl_cons]
    refine ih (if a > acc then a else acc) ?_ (fun r hr => hl r (List.mem_cons_of_mem a hr))
    split_ifs with h
    · exact hl a (List.mem_cons_self a l)
    · exact hacc

theorem exists_of_mem_zipWith {α β γ : Type} {f : α → β → γ} :
    ∀ {l1 : List α} {l2 : List β} {c : γ}, c ∈ List.zipWith f l1 l2 →
      ∃ a ∈ l1, ∃ b ∈ l2, c = f a b := by
  intro l1
  induction l1 with
  | nil => intro l2 c hc; simp at hc
  | cons a l1 ih =>
    intro l2 c hc
    cases l2 with
    | nil => simp at hc
    | cons b l2 =>
      rw [List.zipWith_cons_cons, List.mem_cons] at hc
      rcases hc with hc | hc
      · exact ⟨a, List.mem_cons_self a l1, b, List.mem_cons_self b l2, hc⟩
      · rcases ih hc with ⟨a', ha', b', hb', hc'⟩
        exact ⟨a', List.mem_cons_of_mem a ha', b', List.mem_cons_of_mem b hb', hc'⟩

theorem minus_cdf_mem_unit {n : ℕ} {x : ℚ}
    (h : x ∈ (shifted_uniform_cdf_distribution n).1) : 0 ≤ x ∧ x ≤ 1 := by
  unfold shifted_uniform_cdf_distribution at h
  rcases List.mem_map.mp h with ⟨i, hi, rfl⟩
  have hi' : i < n := List.mem_range.mp hi
  have hn : 0 < n := lt_of_le_of_lt (Nat.zero_le i) hi'
  have hn' : (0 : ℚ) < n := by exact_mod_cast hn
  constructor
  · exact div_nonneg (Nat.cast_nonneg i) (le_of_lt hn')
  · rw [div_le_one hn']
    exact_mod_cast le_of_lt hi'

theorem plus_cdf_mem_unit {n : ℕ} {x : ℚ}
    (h : x ∈ (shifted_uniform_cdf_distribution n).2) : 0 ≤ x ∧ x ≤ 1 := by
  unfold shifted_uniform_cdf_distribution at h
  rcases List.mem_map.mp h with ⟨i, hi, rfl⟩
  have hi' : 1 ≤ i ∧ i < 1 + n := List.mem_range'_1.mp hi
  have hn : 0 < n := by omega
  have hn' : (0 : ℚ) < n := by exact_mod_cast hn
  constructor
  · exact div_nonneg (Nat.cast_nonneg i) (le_of_lt hn')
  · rw [div_le_one hn']
    exact_mod_cast (by omega : i ≤ n)

theorem normalize_variable_mem_unit (parameters : DiscreteUniformDistributionParameters)
    (x : ℚ) (h1 : (parameters.a : ℚ) ≤ x) (h2 : x ≤ (parameters.b : ℚ)) :
    0 ≤ normalize_variable x parameters ∧ normalize_variable x parameters ≤ 1 := by
  have hab : parameters.a ≤ parameters.b := by exact_mod_cast le_trans h1 h2
  unfold normalize_variable
  rcases Nat.eq_or_lt_of_le hab with heq | hlt
  · have hx : x = (parameters.a : ℚ) := le_antisymm (heq ▸ h2) h1
    simp [hx]
  · have hsub : ((parameters.b - parameters.a : ℕ) : ℚ) = (parameters.b : ℚ) - parameters.a := by
      push_cast [Nat.cast_sub hab]
      ring
    have hpos : (0 : ℚ) < (parameters.b : ℚ) - parameters.a := by
      have : (parameters.a : ℚ) < parameters.b := by exact_mod_cast hlt
      linarith
    rw [hsub]
    constructor
    · exact mul_nonneg (by linarith) (by positivity)
    · rw [mul_one_div, div_le_one hpos]
      linarith

theorem f32abs_le_one {c v : ℚ} (hc0 : 0 ≤ c) (hc1 : c ≤ 1) (hv0 : 0 ≤ v)
    (hv1 : v ≤ 1) : f32abs (c - v) ≤ 1 := by
  unfold f32abs
  split_ifs with h
  · linarith
  · linarith

/-- C10: for an experiment containing zero samples, statistic returns
exactly 0: the sorted data is empty, both shifted CDF lists are empty,
both running maxima stay at their initial value 0.0, and the final
f32::max of the two is 0. -/
theorem statistic_empty_zero (parameters : DiscreteUniformDistributionParameters) :
    statistic ⟨[]⟩ parameters = 0 := by
  simp [statistic, minus_max, plus_max, interpolated_values, sorted_data,
    shifted_uniform_cdf_distribution, runningMax, List.insertionSort]

/-- C6: neither Distribution constructor validates its bounds: both
DiscreteUniformDistribution::new and RandDiscreteUniformDistribution::new
accept a = 5, b = 3 with a > b and return a successfully constructed
value carrying exactly those parameters, instead of failing with a
configuration error. -/
theorem distribution_new_no_validation :
    randDiscreteUniformDistribution_new 5 3 =
      { a := 5, b := 3 : RandDiscreteUniformDistribution } ∧
    discreteUniformDistribution_new_params 5 3 =
      { a := 5, b := 3 : DiscreteUniformDistributionParameters } :=
  ⟨rfl, rfl⟩

/-- C4: SimpleHistogram::new does not clamp the bin index: for the
single sample u32::MAX = 4294967295 with 10 bins, the computed bin
index is 10 = num_bins, one past the last valid index 9, and the
construction panics (modelled as none) instead of producing a histogram
whose bin counts sum to the number of data points. -/
theorem histogram_u32_max_out_of_range :
    binIndex 10 4294967295 = 10 ∧ simpleHistogram_new [4294967295] 10 = none := by
  constructor
  · rfl
  · rfl

/-- C1: critical_value returns none for every significance level when
n is at most 40, and for every larger n it returns exactly
c(level) / sqrt(n) with c(10 percent) = 1.07, c(5 percent) = 1.358,
c(1 percent) = 1.52. -/
theorem critical_value_formula (cv : CriticalValue) (n : ℕ) :
    (n ≤ 40 → critical_value cv n = none) ∧
    (40 < n → critical_value cv n = some (ks_constant cv / Real.sqrt n)) := by
  constructor
  · intro h
    simp [critical_value, h]
  · intro h
    cases cv <;> simp [critical_value, ks_constant, Nat.not_le.mpr h]

/-- Witness for C1 at n = 10 and n = 41. -/
theorem critical_value_formula_witness :
    ((10 : ℕ) ≤ 40 ∧ critical_value CriticalValue.FivePercent 10 = none) ∧
    (40 < (41 : ℕ) ∧ critical_value CriticalValue.FivePercent 41 =
      some (ks_constant CriticalValue.FivePercent / Real.sqrt 41)) := by
  refine ⟨⟨by norm_num, ?_⟩, ⟨by norm_num, ?_⟩⟩
  · exact (critical_value_formula CriticalValue.FivePercent 10).1 (by norm_num)
  · have h := (critical_value_formula CriticalValue.FivePercent 41).2 (by norm_num)
    rw [h]
    norm_num

/-- C3: both reference step sequences are computed from the closed-form
ratio at each index: the minus list has length n with entry i equal to
i / n and the plus list has length n with entry i equal to (i + 1) / n;
for n = 5 the two lists are exactly [0, 1/5, 2/5, 3/5, 4/5] and
[1/5, 2/5, 3/5, 4/5, 1]; for n = 100000 the last entries (index 99999)
are exactly 99999 / 100000 and 1. -/
theorem shifted_cdf_closed_form :
    (∀ n : ℕ,
      ((shifted_uniform_cdf_distribution n).1.length = n ∧
       (shifted_uniform_cdf_distribution n).2.length = n) ∧
      (∀ i, i < n →
        (shifted_uniform_cdf_distribution n).1.getD i 0 = (i : ℚ) / (n : ℚ) ∧
        (shifted_uniform_cdf_distribution n).2.getD i 0 = ((i : ℚ) + 1) / (n : ℚ))) ∧
    ((shifted_uniform_cdf_distribution 5).1 = [0, 1/5, 2/5, 3/5, 4/5] ∧
     (shifted_uniform_cdf_distribution 5).2 = [1/5, 2/5, 3/5, 4/5, 1]) ∧
    ((shifted_uniform_cdf_distribution 100000).1.getD 99999 0 = 99999 / 100000 ∧
     (shifted_uniform_cdf_distribution 100000).2.getD 99999 0 = 1) := by
  have hgen : ∀ n : ℕ,
      ((shifted_uniform_cdf_distribution n).1.length = n ∧
       (shifted_uniform_cdf_distribution n).2.length = n) ∧
      (∀ i, i < n →
        (shifted_uniform_cdf_distribution n).1.getD i 0 = (i : ℚ) / (n : ℚ) ∧
        (shifted_uniform_cdf_distribution n).2.getD i 0 = ((i : ℚ) + 1) / (n : ℚ)) := by
    intro n
    refine ⟨⟨by simp [shifted_uniform_cdf_distribution],
             by simp [shifted_uniform_cdf_distribution]⟩, ?_⟩
    intro i hi
    have h1 : i < (shifted_uniform_cdf_distribution n).1.length := by
      simpa [shifted_uniform_cdf_distribution] using hi
    have h2 : i < (shifted_uniform_cdf_distribution n).2.length := by
      simpa [shifted_uniform_cdf_distribution] using hi
    constructor
    · rw [List.getD_eq_getElem _ _ h1]
      simp [shifted_uniform_cdf_distribution]
    · rw [List.getD_eq_getElem _ _ h2]
      simp [shifted_uniform_cdf_distribution]
      ring_nf
  refine ⟨hgen, ⟨?_, ?_⟩, ?_, ?_⟩
  · show (shifted_uniform_cdf_distribution 5).1 = [0, 1/5, 2/5, 3/5, 4/5]
    norm_num [shifted_uniform_cdf_distribution, List.range_succ]
  · show (shifted_uniform_cdf_distribution 5).2 = [1/5, 2/5, 3/5, 4/5, 1]
    norm_num [shifted_uniform_cdf_distribution, List.range']
  · have h := ((hgen 100000).2 99999 (by norm_num)).1
    rw [h]
    norm_num
  · have h := ((hgen 100000).2 99999 (by norm_num)).2
    rw [h]
    norm_num

/-- Witness for C3 at n = 4, i = 2. -/
theorem shifted_cdf_closed_form_witness :
    (2 : ℕ) < 4 ∧
    (shifted_uniform_cdf_distribution 4).1.getD 2 0 = ((2 : ℕ) : ℚ) / ((4 : ℕ) : ℚ) ∧
    (shifted_uniform_cdf_distribution 4).2.getD 2 0 = (((2 : ℕ) : ℚ) + 1) / ((4 : ℕ) : ℚ) :=
  ⟨by norm_num, ((shifted_cdf_closed_form.1 4).2 2 (by norm_num)).1,
   ((shifted_cdf_closed_form.1 4).2 2 (by norm_num)).2⟩

/-- C7: for every significance level and every n in [41, 10^6],
critical_value returns a defined, strictly positive value, and for
fixed level the returned value strictly decreases as n increases over
that range. -/
theorem critical_value_pos_strict_anti (cv : CriticalValue) (n m : ℕ)
    (h1 : 41 ≤ n) (h2 : n ≤ 10 ^ 6) :
    (∃ x, critical_value cv n = some x ∧ 0 < x) ∧
    (n < m → m ≤ 10 ^ 6 → ∀ x y, critical_value cv n = some x →
      critical_value cv m = some y → y < x) := by
  have hc : 0 < ks_constant cv := by
    cases cv <;> norm_num [ks_constant]
  have hval : ∀ k : ℕ, 41 ≤ k →
      critical_value cv k = some (ks_constant cv / Real.sqrt k) := by
    intro k hk
    cases cv <;> simp [critical_value, ks_constant, Nat.not_le.mpr (by omega : 40 < k)]
  have hsq : ∀ k : ℕ, 41 ≤ k → (0 : ℝ) < Real.sqrt k := by
    intro k hk
    refine Real.sqrt_pos.mpr ?_
    exact_mod_cast lt_of_lt_of_le (by norm_num : (0 : ℕ) < 41) hk
  constructor
  · exact ⟨_, hval n h1, div_pos hc (hsq n h1)⟩
  · intro hnm _ x y hx hy
    rw [hval n h1] at hx
    rw [hval m (by omega)] at hy
    have hx' := Option.some.inj hx
    have hy' := Option.some.inj hy
    rw [← hx', ← hy']
    refine div_lt_div_of_pos_left hc (hsq n h1) ?_
    exact Real.sqrt_lt_sqrt (Nat.cast_nonneg n) (by exact_mod_cast hnm)

/-- Witness for C7 at level 1 percent, n = 41, m = 42. -/
theorem critical_value_pos_strict_anti_witness :
    (∃ x, critical_value CriticalValue.OnePercent 41 = some x ∧ 0 < x) ∧
    (∀ x y, critical_value CriticalValue.OnePercent 41 = some x →
      critical_value CriticalValue.OnePercent 42 = some y → y < x) :=
  ⟨(critical_value_pos_strict_anti CriticalValue.OnePercent 41 42
      (by norm_num) (by norm_num)).1,
   (critical_value_pos_strict_anti CriticalValue.OnePercent 41 42
      (by norm_num) (by norm_num)).2 (by norm_num) (by norm_num)⟩

theorem sorted_data_perm_eq {e1 e2 : Experiment ℚ}
    (h : e1.samples.Perm e2.samples) : sorted_data e1 = sorted_data e2 := by
  unfold sorted_data
  congr 1
  refine List.eq_of_perm_of_sorted ?_
    (List.sorted_insertionSort sampleLe e1.samples)
    (List.sorted_insertionSort sampleLe e2.samples)
  exact ((List.perm_insertionSort sampleLe e1.samples).trans h).trans
    (List.perm_insertionSort sampleLe e2.samples).symm

/-- C8: statistic is invariant under permutation of its input samples:
two experiments whose sample lists are permutations of each other (the
same multiset of values) yield the same statistic for every choice of
distribution parameters, because the samples are sorted before any
comparison with the reference CDF. -/
theorem statistic_perm_invariant (e1 e2 : Experiment ℚ)
    (parameters : DiscreteUniformDistributionParameters)
    (h : e1.samples.Perm e2.samples) :
    statistic e1 parameters = statistic e2 parameters := by
  have hs : sorted_data e1 = sorted_data e2 := sorted_data_perm_eq h
  unfold statistic minus_max plus_max interpolated_values
  rw [hs]

/-- Witness for C8 on the two-element permutation [1, 2] and [2, 1]. -/
theorem statistic_perm_invariant_witness :
    ([⟨1⟩, ⟨2⟩] : List (Sample ℚ)).Perm [⟨2⟩, ⟨1⟩] ∧
    statistic ⟨[⟨1⟩, ⟨2⟩]⟩ ⟨0, 2⟩ = statistic ⟨[⟨2⟩, ⟨1⟩]⟩ ⟨0, 2⟩ :=
  ⟨List.Perm.swap (⟨2⟩ : Sample ℚ) ⟨1⟩ [],
   statistic_perm_invariant ⟨[⟨1⟩, ⟨2⟩]⟩ ⟨[⟨2⟩, ⟨1⟩]⟩ ⟨0, 2⟩
     (List.Perm.swap (⟨2⟩ : Sample ℚ) ⟨1⟩ [])⟩

theorem interpolated_values_mem_unit {e : Experiment ℚ}
    {parameters : DiscreteUniformDistributionParameters}
    (h : ∀ s ∈ e.samples, (parameters.a : ℚ) ≤ s.sample ∧
      s.sample ≤ (parameters.b : ℚ)) :
    ∀ v ∈ interpolated_values e parameters, 0 ≤ v ∧ v ≤ 1 := by
  intro v hv
  unfold interpolated_values at hv
  rcases List.mem_map.mp hv with ⟨x, hx, rfl⟩
  unfold sorted_data at hx
  rcases List.mem_map.mp hx with ⟨s, hs, rfl⟩
  have hs' : s ∈ e.samples := (List.perm_insertionSort sampleLe e.samples).mem_iff.mp hs
  exact normalize_variable_mem_unit parameters s.sample (h s hs').1 (h s hs').2

/-- C9: whenever every sample of the experiment lies in the closed
interval [a, b] of the supplied distribution parameters, the value of
statistic lies in the closed interval [0, 1]. -/
theorem statistic_mem_unit_interval (e : Experiment ℚ)
    (parameters : DiscreteUniformDistributionParameters)
    (h : ∀ s ∈ e.samples, (parameters.a : ℚ) ≤ s.sample ∧
      s.sample ≤ (parameters.b : ℚ)) :
    0 ≤ statistic e parameters ∧ statistic e parameters ≤ 1 := by
  have hv := interpolated_values_mem_unit h
  constructor
  · exact le_trans (le_runningMax 0 _) (le_max_left _ _)
  · refine max_le ?_ ?_
    · refine runningMax_le _ 0 (by norm_num) ?_
      intro r hr
      rcases exists_of_mem_zipWith hr with ⟨c, hc, v, hvmem, rfl⟩
      have hcu := minus_cdf_mem_unit hc
      have hvu := hv v hvmem
      exact f32abs_le_one hcu.1 hcu.2 hvu.1 hvu.2
    · refine runningMax_le _ 0 (by norm_num) ?_
      intro r hr
      rcases exists_of_mem_zipWith hr with ⟨c, hc, v, hvmem, rfl⟩
      have hcu := plus_cdf_mem_unit hc
      have hvu := hv v hvmem
      exact f32abs_le_one hcu.1 hcu.2 hvu.1 hvu.2

/-- Witness for C9 on the single sample 1 with parameters a = 0, b = 2. -/
theorem statistic_mem_unit_interval_witness :
    (∀ s ∈ ([⟨1⟩] : List (Sample ℚ)),
      (((0 : ℕ) : ℚ) ≤ s.sample ∧ s.sample ≤ ((2 : ℕ) : ℚ))) ∧
    (0 ≤ statistic ⟨[⟨1⟩]⟩ ⟨0, 2⟩ ∧ statistic ⟨[⟨1⟩]⟩ ⟨0, 2⟩ ≤ 1) :=
  ⟨by intro s hs; rw [List.mem_singleton] at hs; subst hs; norm_num,
   statistic_mem_unit_interval ⟨[⟨1⟩]⟩ ⟨0, 2⟩
     (by intro s hs; rw [List.mem_singleton] at hs; subst hs; norm_num)⟩

/-- The PennState example experiment of ks.rs: samples
[1.41, 0.26, 1.97, 0.33, 0.55, 0.77, 1.46, 1.18]. -/
def psuExperiment : Experiment ℚ :=
  ⟨[⟨141/100⟩, ⟨26/100⟩, ⟨197/100⟩, ⟨33/100⟩, ⟨55/100⟩, ⟨77/100⟩, ⟨146/100⟩,
    ⟨118/100⟩]⟩

/-- C5: on the samples [1.41, 0.26, 1.97, 0.33, 0.55, 0.77, 1.46, 1.18]
with distribution parameters a = 0 and b = 2, statistic returns a value
within 1/10000 of 0.145 (in the exact model the value is 0.145 = 29/200
on the nose). -/
theorem statistic_psu_example :
    f32abs (statistic psuExperiment ⟨0, 2⟩ - 145/1000) < 1/10000 := by
  norm_num [psuExperiment, statistic, minus_max, plus_max, interpolated_values,
    sorted_data, sampleLe, List.insertionSort, List.orderedInsert,
    shifted_uniform_cdf_distribution, List.range_succ, List.range',
    normalize_variable, runningMax, f32abs, max_def]

theorem classIdx_lt_key_lt {x y : ℕ} (h : classIdx x < classIdx y) :
    totalCmpKey x < totalCmpKey y := by
  unfold classIdx at h
  unfold totalCmpKey
  unfold signBitSet isNaN isInf isZero low31 at *
  split_ifs at h ⊢ <;> omega

/-- C2: the comparator of the Ord instance for Sample of f32 (via
f32::total_cmp) returns one of Less, Equal, Greater for every pair of
32-bit patterns; it orders the eight classes as negative NaN, negative
infinity, negative finite, negative zero, positive zero, positive
finite, positive infinity, positive NaN in strictly ascending order;
and the PartialOrd and PartialEq instances for Sample of f32 remain the
standard IEEE numeric comparison: none and false whenever either
operand is NaN, and comparison of the semantic values otherwise. -/
theorem sample_f32_ordering_spec (x y : ℕ) (_hx : x < 4294967296)
    (_hy : y < 4294967296) :
    (total_cmp x y = Ordering.lt ∨ total_cmp x y = Ordering.eq ∨
      total_cmp x y = Ordering.gt) ∧
    (classIdx x < classIdx y → total_cmp x y = Ordering.lt) ∧
    ((isNaN x ∨ isNaN y) → sample_cmp_ieee x y = none ∧
      sample_eq_ieee x y = false) ∧
    (∀ a b, toFVal x = some a → toFVal y = some b →
      sample_cmp_ieee x y = some (FVal.cmp a b) ∧
      (sample_eq_ieee x y = true ↔ FVal.cmp a b = Ordering.eq)) := by
  refine ⟨?_, ?_, ?_, ?_⟩
  · unfold total_cmp
    split_ifs with h1 h2
    · exact Or.inl rfl
    · exact Or.inr (Or.inl rfl)
    · exact Or.inr (Or.inr rfl)
  · intro h
    unfold total_cmp
    rw [if_pos (classIdx_lt_key_lt h)]
  · intro h
    have hnone : toFVal x = none ∨ toFVal y = none := by
      rcases h with h | h
      · exact Or.inl (by simp [toFVal, h])
      · exact Or.inr (by simp [toFVal, h])
    have hcmp : sample_cmp_ieee x y = none := by
      unfold sample_cmp_ieee
      cases hx2 : toFVal x <;> cases hy2 : toFVal y <;> simp_all
    have heq : sample_eq_ieee x y = false := by
      unfold sample_eq_ieee
      rw [hcmp]
    exact ⟨hcmp, heq⟩
  · intro a b ha hb
    have hc : sample_cmp_ieee x y = some (FVal.cmp a b) := by
      unfold sample_cmp_ieee
      rw [ha, hb]
    refine ⟨hc, ?_⟩
    unfold sample_eq_ieee
    rw [hc]
    cases FVal.cmp a b <;> simp

/-- Witness for C2: the bit pattern of -infinity (0xFF800000) is in a
strictly earlier class than the bit pattern of 1.0 (0x3F800000) and
total_cmp orders them as Less. -/
theorem sample_f32_ordering_spec_witness :
    (4286578688 : ℕ) < 4294967296 ∧ (1065353216 : ℕ) < 4294967296 ∧
    classIdx 4286578688 < classIdx 1065353216 ∧
    total_cmp 4286578688 1065353216 = Ordering.lt :=
  ⟨by decide, by decide, by decide,
   (sample_f32_ordering_spec 4286578688 1065353216 (by decide) (by decide)).2.1
     (by decide)⟩
